import Mathlib

/-!
Verification of the Siglent SDS acquisition state machine and waveform
block decoder (src/hardware/siglent-sds/protocol.c) against its
natural-language specification.

The C code is shallowly embedded: the device context becomes an explicit
record, SCPI transport interactions become oracle parameters (scripted
responses), and each C function that the claims mention becomes a Lean
function that mirrors its control flow.  Machine integers are modelled by
Nat/Int (with explicit wrap where the C widths matter) and float
arithmetic by exact rationals.
-/

set_option maxRecDepth 4000

namespace SiglentSds

/-- Protocol variants of the driver (enum `protocol_version`). -/
inductive Protocol where
  | spo
  | nonSpo
  | eseries
deriving DecidableEq, Repr

/-- Data sources (`DATA_SOURCE_SCREEN` / `_HISTORY` / `_READ_ONLY`). -/
inductive DataSource where
  | screen
  | history
  | readOnly
deriving DecidableEq, Repr

/-- The ASM wait events (enum `wait_events`): `WAIT_NONE`, `WAIT_TRIGGER`,
`WAIT_BLOCK`, `WAIT_STOP`. -/
inductive WaitEvent where
  | none
  | trigger
  | block
  | stop
deriving DecidableEq, Repr

/-- The mutable fields of `struct dev_context` that the verified claims
touch.  Counters are natural numbers (the C fields are unsigned). -/
structure DevContext where
  wait_event : WaitEvent
  wait_status : ℕ
  retry_count : ℕ
  num_frames : ℕ
  limit_frames : ℕ
  num_samples : ℕ
  num_block_bytes : ℕ
  num_block_read : ℕ
  num_header_bytes : ℕ
  num_channel_bytes : ℕ
  block_header_size : ℤ
  close_history : Bool
  /-- Position of `channel_entry` inside `enabled_channels` (0 = head). -/
  channel_cursor : ℕ
deriving DecidableEq, Repr

/-- A quiescent context used to build concrete test states. -/
def DevContext.init : DevContext :=
  { wait_event := .none
    wait_status := 1
    retry_count := 0
    num_frames := 0
    limit_frames := 1
    num_samples := 0
    num_block_bytes := 0
    num_block_read := 0
    num_header_bytes := 0
    num_channel_bytes := 0
    block_header_size := 0
    close_history := false
    channel_cursor := 0 }

/-- Embedding of `siglent_sds_set_wait_event` (protocol.c:49).  For
`WAIT_STOP` it sets `wait_status = 2` but assigns `wait_event` only when
the protocol is `ESERIES`; every other event sets `wait_status = 1` and
stores the event. -/
def siglent_sds_set_wait_event (proto : Protocol) (d : DevContext)
    (ev : WaitEvent) : DevContext :=
  if ev = .stop then
    let d2 := { d with wait_status := 2 }
    if proto = .eseries then { d2 with wait_event := .stop } else d2
  else
    { d with wait_status := 1, wait_event := ev }

/-- Embedding of `siglent_sds_channel_start` (protocol.c:342).  The SCPI
send is abstracted by the oracle bit `sendOk`; on success the byte
counters are reset and the wait event becomes `WAIT_NONE`. -/
def siglent_sds_channel_start (proto : Protocol) (sendOk : Bool)
    (d : DevContext) : Option DevContext :=
  if !sendOk then Option.none
  else
    some (siglent_sds_set_wait_event proto
      { d with num_channel_bytes := 0, num_header_bytes := 0,
               num_block_bytes := 0 } .none)

/-- Modelled from the spec: the `DEVICE_STATE_TRIG_RDY` constant lives in
protocol.h, which is not among the provided sources; only its identity as
the "trigger ready" `INR?` pattern matters here. -/
def DEVICE_STATE_TRIG_RDY : ℤ := 8192

/-- Modelled from the spec: the `DEVICE_STATE_DATA_TRIG_RDY` constant
lives in protocol.h, which is not among the provided sources; only its
identity as the "data acquired and trigger ready" pattern matters here. -/
def DEVICE_STATE_DATA_TRIG_RDY : ℤ := 8193

/-- Scripted SCPI responses consumed by `siglent_sds_capture_start`.
Each field mirrors one transport interaction of the C function; `Ok`
flags stand for `SR_OK` results of sends/queries. -/
structure CaptureOracle where
  armOk : Bool
  inrOk : Bool
  inr : ℤ
  fparOk : Bool
  fparRead : ℤ
  framecount : ℕ
  framOk : Bool
  chanOk : Bool
  trmdSingleOk : Bool
  trmdOk : Bool
  trmd : String
  hsmdOk : Bool
  hsmd : String
  hsmdSetOk : Bool
  framBigOk : Bool
  framQOk : Bool
  framQ : ℤ
  fram1Ok : Bool
deriving Repr

/-- An oracle where every transport interaction succeeds. -/
def CaptureOracle.allOk : CaptureOracle :=
  { armOk := true, inrOk := true, inr := 0
    fparOk := true, fparRead := 200, framecount := 1
    framOk := true, chanOk := true
    trmdSingleOk := true, trmdOk := true, trmd := "STOP"
    hsmdOk := true, hsmd := "OFF", hsmdSetOk := true
    framBigOk := true, framQOk := true, framQ := 1, fram1Ok := true }

/-- The `limit_frames` reconciliation against the device's history
frame count in the SPO history branch (protocol.c:244-247): a limit
above the frame count is only logged, a zero limit is replaced by the
frame count. -/
def historyLimitUpdate (framecount : ℕ) (d : DevContext) : DevContext :=
  if framecount < d.limit_frames then d
  else if d.limit_frames = 0 then { d with limit_frames := framecount }
  else d

/-- Embedding of `siglent_sds_capture_start` (protocol.c:196).
`Option.none` stands for an `SR_ERR` return (the partial mutations a C
error path may leave behind are not tracked). -/
def siglent_sds_capture_start (proto : Protocol) (ds : DataSource)
    (o : CaptureOracle) (d0 : DevContext) : Option DevContext :=
  let d := { d0 with retry_count := 0 }
  match proto with
  | .spo =>
    match ds with
    | .screen =>
      if !o.armOk then Option.none
      else if !o.inrOk then Option.none
      else if o.inr = DEVICE_STATE_TRIG_RDY then
        some (siglent_sds_set_wait_event proto d .trigger)
      else if o.inr = DEVICE_STATE_DATA_TRIG_RDY then
        some (siglent_sds_set_wait_event proto d .block)
      else Option.none
    | .history =>
      if !o.fparOk then Option.none
      else if o.fparRead < 0 then Option.none
      else if !o.framOk then Option.none
      else
        match siglent_sds_channel_start proto o.chanOk
            (historyLimitUpdate o.framecount d) with
        | Option.none => Option.none
        | some d3 => some (siglent_sds_set_wait_event proto d3 .stop)
    | .readOnly =>
      some (siglent_sds_set_wait_event proto d .stop)
  | .eseries =>
    match ds with
    | .screen =>
      let d2 := { d with limit_frames := 1, close_history := false }
      if !o.trmdSingleOk then Option.none
      else some (siglent_sds_set_wait_event proto d2 .stop)
    | .history =>
      if !o.trmdOk then Option.none
      else
        let d2 :=
          if o.trmd = "STOP" then { d with close_history := false }
          else { d with close_history := true }
        if !o.hsmdOk then Option.none
        else if o.hsmd = "OFF" ∧ !o.hsmdSetOk then Option.none
        else if o.hsmd ≠ "OFF" ∧ !o.framBigOk then Option.none
        else if !o.framQOk then Option.none
        else if o.framQ < 1 then Option.none
        else
          let d3 := { d2 with limit_frames := o.framQ.toNat }
          if !o.fram1Ok then Option.none
          else some (siglent_sds_set_wait_event proto d3 .stop)
    | .readOnly =>
      let d2 := { d with close_history := false, limit_frames := 1 }
      some (siglent_sds_set_wait_event proto d2 .stop)
  | .nonSpo =>
    some (siglent_sds_set_wait_event proto d .trigger)

/-- Session / driver events observable from one poll of the handler. -/
inductive Ev where
  | frameBegin
  | frameEnd
  | acqStop
  | analogPacket (nbytes : ℕ)
  | logicPacket (nbytes : ℕ)
  | captureStart
deriving DecidableEq, Repr

/-- Outcome of handling one `sr_scpi_read_data` result inside the payload
loop of `siglent_sds_receive`. -/
inductive StepResult where
  | yieldRetry (d : DevContext) (sleep_us : ℕ)
  | flushBreak
  | abortRead
  | abortEOF
  | emptyRetry (d : DevContext) (sleep_us : ℕ)
  | emptyAbortBreak
  | accum (d : DevContext) (n : ℕ)
deriving Repr

/-- Embedding of the read-result handling inside the payload loop of
`siglent_sds_receive` (protocol.c:684-728) for one read returning `len`;
`lbr` is `loop_bytes_read` accumulated so far in this poll. -/
def readStep (proto : Protocol) (d : DevContext) (lbr : ℕ) (len : ℤ) :
    StepResult :=
  if len = -1 then
    if 0 < lbr then .flushBreak
    else if d.retry_count < 5 then
      .yieldRetry { d with retry_count := d.retry_count + 1 } 1000
    else .abortRead
  else if len = 0 then .abortEOF
  else if len = 2 ∧ d.num_block_read = 0 then
    if d.retry_count < 5 then
      .emptyRetry
        (siglent_sds_set_wait_event proto
          { d with retry_count := d.retry_count + 1 } .block) 100000
    else .emptyAbortBreak
  else
    .accum { d with num_block_bytes := d.num_block_bytes + len.toNat,
                    num_block_read := d.num_block_read + 1 } len.toNat

/-- `sr_scpi_read_data` returns at most the requested byte count; a
scripted positive response is clamped to the request `req`. -/
def clampRead (len : ℤ) (req : ℕ) : ℤ :=
  if 0 < len then min len (req : ℤ) else len

/-- Result of the inner `do {} while (loop_bytes_read < MIN(10240,
loop_bytes_available))` read loop: a `return TRUE` with a backoff sleep, a
`return TRUE` after emitting frame-end and stopping, or falling out of
the loop (via its condition or a `break`). -/
inductive InnerOut where
  | yield (d : DevContext) (sleep_us : ℕ) (lbr : ℕ)
  | aborted (d : DevContext) (lbr : ℕ)
  | exitInner (d : DevContext) (lbr : ℕ) (rest : List ℤ)
deriving Repr

/-- Embedding of the inner payload read loop (protocol.c:682-729).  The
scripted transport `reads` yields one `Int` per `sr_scpi_read_data` call;
an exhausted script behaves like a stalled transport (`-1`). -/
def innerLoop (proto : Protocol) (avail : ℕ) :
    DevContext → ℕ → List ℤ → InnerOut
  | d, lbr, [] =>
    match readStep proto d lbr (-1) with
    | .yieldRetry d2 s => .yield d2 s lbr
    | .flushBreak => .exitInner d lbr []
    | _ => .aborted d lbr
  | d, lbr, len :: rest =>
    let actual := clampRead len (d.num_samples - d.num_block_bytes)
    match readStep proto d lbr actual with
    | .yieldRetry d2 s => .yield d2 s lbr
    | .flushBreak => .exitInner d lbr rest
    | .abortRead => .aborted d lbr
    | .abortEOF => .aborted d lbr
    | .emptyRetry d2 s => .yield d2 s lbr
    | .emptyAbortBreak => .exitInner d lbr rest
    | .accum d2 n =>
      if lbr + n < min 10240 avail then innerLoop proto avail d2 (lbr + n) rest
      else .exitInner d2 (lbr + n) rest

/-- How one invocation of the block-phase payload code returns to the
event loop. -/
inductive PollExit where
  | yielded
  | aborted
  | abortNegAvail
  | channelAbort
  | completed
  | abortReadComplete
  | fuelOut
deriving DecidableEq, Repr

/-- Result of one poll of the analog block phase: the exit taken, the
final context, the total payload bytes accumulated this poll, the events
emitted, and any backoff sleep requested. -/
structure PollResult where
  exit : PollExit
  d : DevContext
  total : ℕ
  events : List Ev
  sleep_us : ℕ
deriving Repr

/-- Embedding of the outer `do {} while (!read_complete)` loop of
`siglent_sds_receive` (protocol.c:670-797).  `rco` scripts the
`sr_scpi_read_complete` probe.  Each pass consumes at least one scripted
read, so fuel `reads.length + 1` never runs out. -/
def outerLoop (proto : Protocol) (rco : Bool) :
    ℕ → DevContext → List ℤ → ℕ → List Ev → PollResult
  | 0, d, _, acc, evs => ⟨.fuelOut, d, acc, evs, 0⟩
  | fuel + 1, d, reads, acc, evs =>
    if d.num_samples < d.num_block_bytes then
      ⟨.abortNegAvail, d, acc, evs ++ [Ev.frameEnd, Ev.acqStop], 0⟩
    else
      let avail := d.num_samples - d.num_block_bytes
      match innerLoop proto avail d 0 reads with
      | .yield d2 s lbr => ⟨.yielded, d2, acc + lbr, evs, s⟩
      | .aborted d2 lbr =>
        ⟨.aborted, d2, acc + lbr, evs ++ [Ev.frameEnd, Ev.acqStop], 0⟩
      | .exitInner d2 lbr rest =>
        let d3 := { d2 with retry_count := 0 }
        if lbr = 0 then ⟨.channelAbort, d3, acc, evs, 0⟩
        else
          let evs2 := evs ++ [Ev.analogPacket lbr]
          if d3.num_samples ≤ d3.num_block_bytes then
            let d4 := { d3 with num_header_bytes := 0, num_block_bytes := 0 }
            let termLen : ℤ :=
              match rest with
              | [] => -1
              | l :: _ => clampRead l 3
            let evs3 :=
              if termLen = 2 then evs2 else evs2 ++ [Ev.frameEnd, Ev.acqStop]
            if !rco then
              ⟨.abortReadComplete, d4, acc + lbr,
                evs3 ++ [Ev.frameEnd, Ev.acqStop], 0⟩
            else ⟨.completed, { d4 with num_block_read := 0 }, acc + lbr, evs3, 0⟩
          else outerLoop proto rco fuel d3 rest (acc + lbr) evs2

/-- One poll of the analog block phase (payload part), starting with
`loop_bytes_read = 0` and no events emitted yet. -/
def pollBlock (proto : Protocol) (rco : Bool) (d : DevContext)
    (reads : List ℤ) : PollResult :=
  outerLoop proto rco (reads.length + 1) d reads 0 []

/-- Embedding of the channel/frame progression after the analog block
phase (protocol.c:799-845).  `hasNext` says whether `channel_entry->next`
exists. -/
def analogTail (proto : Protocol) (ds : DataSource) (hasNext : Bool)
    (framOk : Bool) (o : CaptureOracle) (d : DevContext) :
    DevContext × List Ev :=
  if hasNext then
    (siglent_sds_set_wait_event proto
      { d with channel_cursor := d.channel_cursor + 1 } .block, [])
  else
    let d1 := { d with num_frames := d.num_frames + 1 }
    if d1.num_frames = d1.limit_frames then
      (d1, [Ev.frameEnd, Ev.acqStop])
    else
      let d2 := { d1 with channel_cursor := 0 }
      match proto with
      | .eseries =>
        if !framOk then (d2, [Ev.frameEnd, Ev.frameEnd, Ev.acqStop])
        else
          (siglent_sds_set_wait_event proto d2 .block,
            [Ev.frameEnd, Ev.frameBegin])
      | _ =>
        match siglent_sds_capture_start proto ds o d2 with
        | some d3 => (d3, [Ev.frameEnd, Ev.captureStart, Ev.frameBegin])
        | Option.none =>
          ({ d2 with retry_count := 0 },
            [Ev.frameEnd, Ev.captureStart, Ev.frameBegin])

/-- The branch chosen by the `switch (devc->wait_event)` dispatch at the
top of `siglent_sds_receive` (protocol.c:594). -/
inductive DispatchBranch where
  | proceed
  | awaitTrigger
  | awaitBlock
  | awaitStop
deriving DecidableEq, Repr

/-- Embedding of the wait-event dispatch of `siglent_sds_receive`:
only `wait_event == WAIT_STOP` reaches the stop-wait branch. -/
def receive_dispatch (d : DevContext) : DispatchBranch :=
  match d.wait_event with
  | .none => .proceed
  | .trigger => .awaitTrigger
  | .block => .awaitBlock
  | .stop => .awaitStop

/-- Retry count carried by the context inside a `StepResult`, or the
given fallback when the step does not carry a context. -/
def stepRetry (r : StepResult) (dflt : ℕ) : ℕ :=
  match r with
  | .yieldRetry d _ => d.retry_count
  | .emptyRetry d _ => d.retry_count
  | .accum d _ => d.retry_count
  | _ => dflt

/-- Two's-complement reading of a payload byte as the C cast
`(int8_t)` applied in protocol.c:749. -/
def int8OfByte (b : ℕ) : ℤ :=
  if b % 256 < 128 then (b % 256 : ℤ) else (b % 256 : ℤ) - 256

/-- Per-sample conversion loop of `siglent_sds_receive`
(protocol.c:748-752): `voltage = raw / 25; voltage = vdiv * voltage -
offset`, over exact rationals. -/
def convert_loop (vdiv offset : ℚ) : List ℕ → List ℚ
  | [] => []
  | b :: bs =>
    (vdiv * (int8OfByte b / 25) - offset) :: convert_loop vdiv offset bs

/-- Measured quantities (`sr_mq`), restricted to those this driver can
emit on analog packets plus an alternative to keep the claim
non-vacuous. -/
inductive Mq where
  | voltage
  | current
deriving DecidableEq, Repr

/-- Units (`sr_unit`), restricted likewise. -/
inductive SrUnit where
  | volt
  | ampere
deriving DecidableEq, Repr

/-- The C cast `(int)` applied to a float value: truncation toward
zero, over ℚ. -/
def c_trunc (x : ℚ) : ℤ := if 0 ≤ x then ⌊x⌋ else ⌈x⌉

/-- Digits computation of protocol.c:753-754: `vdivlog = log10f(vdiv);
digits = -(int)vdivlog + (vdivlog < 0.0)`, parametrised by the value
`vdivlog` of `log10f(vdiv)`. -/
def digits_code (vdivlog : ℚ) : ℤ :=
  -(c_trunc vdivlog) + (if vdivlog < 0 then 1 else 0)

/-- An emitted `SR_DF_ANALOG` packet, as filled in protocol.c:755-763. -/
structure AnalogPacket where
  samples : List ℚ
  mq : Mq
  unit : SrUnit
  digits : ℤ
deriving Repr

/-- Emission of one analog chunk (protocol.c:737-764): samples from the
conversion loop, measured quantity `SR_MQ_VOLTAGE`, unit `SR_UNIT_VOLT`,
digits from `digits_code`. -/
def emit_analog (vdiv offset vdivlog : ℚ) (buffer : List ℕ) : AnalogPacket :=
  { samples := convert_loop vdiv offset buffer
    mq := .voltage
    unit := .volt
    digits := digits_code vdivlog }

/-- The decode function written from the spec's words:
`decode(vdiv, offset, raw_i8) = vdiv·(raw/25) − offset`. -/
def decode_spec (vdiv offset : ℚ) (raw : ℤ) : ℚ := vdiv * (raw / 25) - offset

/-- Modelled from the spec: `SIGLENT_HEADER_SIZE` is defined in
protocol.h, which is not among the provided sources; its value is 363
per the spec (§3 I6). -/
def SIGLENT_HEADER_SIZE : ℕ := 363

/-- A scripted binary read: `fail` models a `-1` return, `bytes bs` a
successful read delivering (up to the requested count of) `bs`. -/
inductive RawRead where
  | fail
  | bytes (bs : List ℕ)
deriving DecidableEq, Repr

/-- The header assembly loop of `siglent_sds_read_header`
(protocol.c:397-414): keeps reading until `SIGLENT_HEADER_SIZE` bytes
have arrived; a `-1` or an empty read aborts with `SR_ERR` (`none`). -/
def headerReadLoop (total : ℕ) (acc : List ℕ) :
    List RawRead → Option (List ℕ × List RawRead)
  | [] => Option.none
  | .fail :: _ => Option.none
  | .bytes bs :: rest =>
    let chunk := bs.take (SIGLENT_HEADER_SIZE - total)
    if chunk.length = 0 then Option.none
    else if total + chunk.length < SIGLENT_HEADER_SIZE then
      headerReadLoop (total + chunk.length) (acc ++ chunk) rest
    else some (acc ++ chunk, rest)

/-- Little-endian signed 32-bit decode, as the `memcpy` of four buffer
bytes into a C `int`. -/
def le32 (b0 b1 b2 b3 : ℕ) : ℤ :=
  let u : ℕ :=
    b0 % 256 + 256 * (b1 % 256) + 65536 * (b2 % 256) + 16777216 * (b3 % 256)
  if u < 2147483648 then (u : ℤ) else (u : ℤ) - 4294967296

/-- Error outcomes of `siglent_sds_read_header`; all map to `SR_ERR`. -/
inductive HeaderErr where
  | readErr
  | emptyWaveform
  | garbageWaveform
deriving DecidableEq, Repr

/-- Descriptor length: offset 36 of the WaveDescriptor, i.e. buffer
offset 15 + 36 (protocol.c:422). -/
def descLengthOf (buf : List ℕ) : ℤ :=
  le32 (buf.getD 51 0) (buf.getD 52 0) (buf.getD 53 0) (buf.getD 54 0)

/-- Data length: offset 60 of the WaveDescriptor, i.e. buffer offset
15 + 60 (protocol.c:423). -/
def dataLengthOf (buf : List ℕ) : ℤ :=
  le32 (buf.getD 75 0) (buf.getD 76 0) (buf.getD 77 0) (buf.getD 78 0)

/-- Length returned by the 3-byte probe read issued after a zero
`data_length` (protocol.c:426). -/
def headerProbeLen (rest : List RawRead) : ℤ :=
  match rest with
  | [] => -1
  | .fail :: _ => -1
  | .bytes bs :: _ => ((bs.take 3).length : ℤ)

/-- Embedding of `siglent_sds_read_header` (protocol.c:381-442).
Returns the updated context plus either the byte count read (the
`SR_OK` path returns `header_bytes_read_total`) or the error kind. -/
def siglent_sds_read_header (d : DevContext) (script : List RawRead) :
    DevContext × Except HeaderErr ℕ :=
  match headerReadLoop 0 [] script with
  | Option.none => (d, .error .readErr)
  | some (buf, rest) =>
    let d2 :=
      { d with num_header_bytes := d.num_header_bytes + SIGLENT_HEADER_SIZE }
    if dataLengthOf buf = 0 then
      if headerProbeLen rest = 2 then (d2, .error .emptyWaveform)
      else (d2, .error .garbageWaveform)
    else
      ({ d2 with
          block_header_size := descLengthOf buf + 15,
          num_samples :=
            ((dataLengthOf buf) % 18446744073709551616).toNat },
        .ok SIGLENT_HEADER_SIZE)

/-- ASCII lower-casing as `g_ascii_tolower`. -/
def asciiLower (c : Char) : Char :=
  if 'A' ≤ c ∧ c ≤ 'Z' then Char.ofNat (c.toNat + 32) else c

/-- Case-insensitive string equality, as `!g_ascii_strcasecmp(a, b)`;
true only when both strings have the same length. -/
def ciEq : List Char → List Char → Bool
  | [], [] => true
  | a :: as, b :: bs => (asciiLower a == asciiLower b) && ciEq as bs
  | _, _ => false

/-- The last-two-characters window `tokens[4] + (len - 2)` used by the
suffix tests (protocol.c:998-1008). -/
def lastTwo (tok : List Char) : List Char := tok.drop (tok.length - 2)

/-- Embedding of the trigger-delay suffix conversion in
`siglent_sds_get_dev_cfg` (protocol.c:993-1012).  `value` stands for
`atof(tokens[4])`; `trigger_pos` is initialised to 0 and assigned only
inside a matching branch.  The divisors are `SR_GHZ(1)`, `SR_MHZ(1)`,
`SR_KHZ(1)`. -/
def trigger_pos_of_token (tok : List Char) (value : ℚ) : ℚ :=
  if ciEq (lastTwo tok) ['u', 's'] then value / 1000000000
  else if ciEq (lastTwo tok) ['n', 's'] then value / 1000000
  else if ciEq (lastTwo tok) ['m', 's'] then value / 1000
  else if ciEq (lastTwo tok) ['s'] then value
  else 0

/-- Embedding of the logic-channel branch of `siglent_sds_receive`
(protocol.c:847-870).  `digLen` is the return value of
`siglent_sds_get_digital` and `digBufLen` the length of
`devc->dig_buffer`; the branch only proceeds when `digLen` is nonzero.
The return value of the inner `siglent_sds_capture_start` call is
ignored by the C code, so on its failure only the mutations certainly
performed (the initial `retry_count = 0`) are kept. -/
def logicBranch (proto : Protocol) (ds : DataSource) (o : CaptureOracle)
    (digLen : ℤ) (digBufLen : ℕ) (d : DevContext) : DevContext × List Ev :=
  if digLen = 0 then (d, [])
  else
    let evs := [Ev.logicPacket digBufLen, Ev.frameEnd, Ev.acqStop]
    let d1 := { d with num_frames := d.num_frames + 1 }
    if d1.num_frames = d1.limit_frames then (d1, evs ++ [Ev.acqStop])
    else
      let d2 := { d1 with channel_cursor := 0 }
      match siglent_sds_capture_start proto ds o d2 with
      | some d3 => (d3, evs ++ [Ev.captureStart, Ev.frameBegin])
      | Option.none =>
        ({ d2 with retry_count := 0 }, evs ++ [Ev.captureStart, Ev.frameBegin])

/-- Bit `ii` of a scope byte: `(sample >> ii) & 1` on the signed char;
for `0 ≤ ii < 8` the arithmetic shift agrees with the byte's bit. -/
def scopeBit (b : ℕ) (ii : ℕ) : Bool := Nat.testBit (b % 256) ii

/-- The eight bit-plane steps for one scope byte `b`
(protocol.c:484-509): each step reads the previous accumulator `acc` at
`samples_index` (an access guarded by the accumulator's length), ORs in
the channel bit, and appends the value; `base` is `samples_index` at
the start of the byte. -/
def planeBits (chBit : ℕ) (b : ℕ) (acc : List ℕ) (base : ℕ) : List ℕ :=
  (List.range 8).map (fun ii =>
    let prev := if acc.length ≤ base + ii then 0 else acc.getD (base + ii) 0
    if scopeBit b ii then prev ||| (1 <<< chBit) else prev)

/-- The per-channel bit-planing loop of `siglent_sds_get_digital`
(protocol.c:482-510): `cur` runs from 0 to `memory_depth_digital - 1`
and indexes `buffdata` unguarded; an out-of-bounds `g_array_index` is
undefined behaviour, modelled as `none`. -/
def planeGo (chBit : ℕ) (buffdata acc : List ℕ) :
    ℕ → ℕ → List ℕ → Option (List ℕ)
  | 0, _, tmp => some tmp
  | remaining + 1, cur, tmp =>
    match buffdata.get? cur with
    | Option.none => Option.none
    | some b =>
      planeGo chBit buffdata acc remaining (cur + 1)
        (tmp ++ planeBits chBit b acc (8 * cur))

/-- One enabled logic channel's bit-planing pass: `memory_depth_digital`
iterations over a raw buffer holding `len - 15` bytes. -/
def planeChannelLoop (chIdx mdd : ℕ) (buffdata acc : List ℕ) :
    Option (List ℕ) :=
  planeGo (if chIdx < 8 then chIdx else chIdx - 8) buffdata acc mdd 0 []

/-- The final interleave of `siglent_sds_get_digital`
(protocol.c:536-553): for each `index < memory_depth_digital` it reads
the low and the high accumulator when the respective half was processed
(`low_channels` / `high_channels`), else appends 0. -/
def interleaveGo (lowCh highCh : Bool) (lowAcc highAcc : List ℕ) :
    ℕ → ℕ → List ℕ → Option (List ℕ)
  | 0, _, out => some out
  | remaining + 1, idx, out =>
    match (if lowCh then lowAcc.get? idx else some 0) with
    | Option.none => Option.none
    | some lv =>
      match (if highCh then highAcc.get? idx else some 0) with
      | Option.none => Option.none
      | some hv =>
        interleaveGo lowCh highCh lowAcc highAcc remaining (idx + 1)
          (out ++ [lv, hv])

/-- The interleave over the whole digital depth. -/
def interleaveLoop (mdd : ℕ) (lowCh highCh : Bool)
    (lowAcc highAcc : List ℕ) : Option (List ℕ) :=
  interleaveGo lowCh highCh lowAcc highAcc mdd 0 []

/-- A scripted header transport: one full 363-byte chunk of zeros (so
the parsed `data_length` is 0) followed by a 2-byte probe response. -/
def hdrScript : List RawRead :=
  [RawRead.bytes (List.replicate SIGLENT_HEADER_SIZE 0),
   RawRead.bytes [10, 10]]

/-- Concrete context: mid-block state with a large remaining payload,
used to exhibit a poll that reads more than 10240 bytes. -/
def dBig : DevContext :=
  { DevContext.init with
      num_samples := 20481, num_block_bytes := 1, num_block_read := 1 }

/-- Concrete context: a stalled read with the retry budget exhausted. -/
def dStall : DevContext :=
  { DevContext.init with num_samples := 100, retry_count := 5 }

/-- Concrete context: an empty-waveform response with the retry budget
exhausted. -/
def dEmptyAbort : DevContext :=
  { DevContext.init with
      num_samples := 100, num_block_read := 0, retry_count := 5 }

lemma set_wait_event_cursor (p : Protocol) (d : DevContext) (e : WaitEvent) :
    (siglent_sds_set_wait_event p d e).channel_cursor = d.channel_cursor := by
  unfold siglent_sds_set_wait_event
  split_ifs <;> rfl

lemma set_wait_event_frames (p : Protocol) (d : DevContext) (e : WaitEvent) :
    (siglent_sds_set_wait_event p d e).num_frames = d.num_frames := by
  unfold siglent_sds_set_wait_event
  split_ifs <;> rfl

lemma set_wait_event_stop_status (p : Protocol) (d : DevContext) :
    (siglent_sds_set_wait_event p d .stop).wait_status = 2 := by
  unfold siglent_sds_set_wait_event
  rw [if_pos rfl]
  split_ifs <;> rfl

lemma set_wait_event_stop_event_spo (d : DevContext) :
    (siglent_sds_set_wait_event .spo d .stop).wait_event = d.wait_event := by
  rfl

lemma historyLimitUpdate_cursor (n : ℕ) (d : DevContext) :
    (historyLimitUpdate n d).channel_cursor = d.channel_cursor := by
  unfold historyLimitUpdate
  split_ifs <;> rfl

lemma historyLimitUpdate_frames (n : ℕ) (d : DevContext) :
    (historyLimitUpdate n d).num_frames = d.num_frames := by
  unfold historyLimitUpdate
  split_ifs <;> rfl

lemma channel_start_cases (p : Protocol) (ok : Bool) (d d2 : DevContext)
    (h : siglent_sds_channel_start p ok d = some d2) :
    d2 = siglent_sds_set_wait_event p
      { d with num_channel_bytes := 0, num_header_bytes := 0,
               num_block_bytes := 0 } .none := by
  unfold siglent_sds_channel_start at h
  cases ok
  · exact Option.noConfusion h
  · injection h with h
    exact h.symm

lemma channel_start_cursor (p : Protocol) (ok : Bool) (d d2 : DevContext)
    (h : siglent_sds_channel_start p ok d = some d2) :
    d2.channel_cursor = d.channel_cursor := by
  rw [channel_start_cases p ok d d2 h, set_wait_event_cursor]

lemma channel_start_frames (p : Protocol) (ok : Bool) (d d2 : DevContext)
    (h : siglent_sds_channel_start p ok d = some d2) :
    d2.num_frames = d.num_frames := by
  rw [channel_start_cases p ok d d2 h, set_wait_event_frames]

lemma channel_start_event (p : Protocol) (ok : Bool) (d d2 : DevContext)
    (h : siglent_sds_channel_start p ok d = some d2) :
    d2.wait_event = WaitEvent.none ∧ d2.wait_status = 1 := by
  rw [channel_start_cases p ok d d2 h]
  exact ⟨rfl, rfl⟩

lemma capture_start_spo_history_cases (o : CaptureOracle) (d d2 : DevContext)
    (h : siglent_sds_capture_start .spo .history o d = some d2) :
    ∃ d3, siglent_sds_channel_start .spo o.chanOk
        (historyLimitUpdate o.framecount { d with retry_count := 0 }) = some d3
      ∧ d2 = siglent_sds_set_wait_event .spo d3 .stop := by
  unfold siglent_sds_capture_start at h
  simp only [] at h
  split_ifs at h
  rcases hcs : siglent_sds_channel_start .spo o.chanOk
      (historyLimitUpdate o.framecount { d with retry_count := 0 })
    with _ | d3 <;> rw [hcs] at h
  · exact Option.noConfusion h
  · injection h with h
    exact ⟨d3, rfl, h.symm⟩

lemma capture_start_cursor_frames (p : Protocol) (ds : DataSource)
    (o : CaptureOracle) (d d2 : DevContext)
    (h : siglent_sds_capture_start p ds o d = some d2) :
    d2.channel_cursor = d.channel_cursor ∧ d2.num_frames = d.num_frames := by
  cases p <;> cases ds <;> unfold siglent_sds_capture_start at h <;>
    simp only [] at h
  case spo.screen =>
    split_ifs at h
    all_goals injection h with h
    all_goals rw [← h, set_wait_event_cursor, set_wait_event_frames]
    all_goals exact ⟨rfl, rfl⟩
  case spo.history =>
    obtain ⟨d3, hcs, rfl⟩ := capture_start_spo_history_cases o d d2 h
    rw [set_wait_event_cursor, set_wait_event_frames,
      channel_start_cursor _ _ _ _ hcs, channel_start_frames _ _ _ _ hcs,
      historyLimitUpdate_cursor, historyLimitUpdate_frames]
    exact ⟨rfl, rfl⟩
  case spo.readOnly =>
    injection h with h
    rw [← h, set_wait_event_cursor, set_wait_event_frames]
    exact ⟨rfl, rfl⟩
  case eseries.screen =>
    split_ifs at h
    all_goals injection h with h
    all_goals rw [← h, set_wait_event_cursor, set_wait_event_frames]
    all_goals exact ⟨rfl, rfl⟩
  case eseries.history =>
    split_ifs at h
    all_goals injection h with h
    all_goals rw [← h, set_wait_event_cursor, set_wait_event_frames]
    all_goals exact ⟨rfl, rfl⟩
  case eseries.readOnly =>
    injection h with h
    rw [← h, set_wait_event_cursor, set_wait_event_frames]
    exact ⟨rfl, rfl⟩
  case nonSpo.screen =>
    injection h with h
    rw [← h, set_wait_event_cursor, set_wait_event_frames]
    exact ⟨rfl, rfl⟩
  case nonSpo.history =>
    injection h with h
    rw [← h, set_wait_event_cursor, set_wait_event_frames]
    exact ⟨rfl, rfl⟩
  case nonSpo.readOnly =>
    injection h with h
    rw [← h, set_wait_event_cursor, set_wait_event_frames]
    exact ⟨rfl, rfl⟩

/-- C1 counterexample: starting an SPO-model acquisition from a
quiescent context with data source `ReadOnly`, `siglent_sds_capture_start`
succeeds with `wait_status = 2` but `wait_event` is NOT `Stop` (it stays
`None`), and the next poll's dispatch does not reach the stop-wait
branch. -/
theorem c1_counterexample :
    siglent_sds_capture_start .spo .readOnly CaptureOracle.allOk
        DevContext.init =
      some { DevContext.init with wait_status := 2 }
    ∧ ({ DevContext.init with wait_status := 2 } : DevContext).wait_event ≠
        WaitEvent.stop
    ∧ receive_dispatch { DevContext.init with wait_status := 2 } ≠
        DispatchBranch.awaitStop := by
  decide

/-- C1 (amended): for the SPO model with data source History or ReadOnly,
a successful `siglent_sds_capture_start` leaves `wait_status = 2` but
does not set `wait_event` to `Stop`: `siglent_sds_set_wait_event` stores
`WAIT_STOP` only for the ESERIES protocol.  After History the wait event
is `None` (set by `siglent_sds_channel_start`), after ReadOnly it is
whatever it was before, so the next poll does not take the stop-wait
branch merely because `wait_status = 2`. -/
theorem c1_spo_wait_status (o : CaptureOracle) (d d2 d3 : DevContext)
    (hHist : siglent_sds_capture_start .spo .history o d = some d2)
    (hRo : siglent_sds_capture_start .spo .readOnly o d = some d3) :
    (d2.wait_status = 2 ∧ d2.wait_event = WaitEvent.none ∧
      receive_dispatch d2 = DispatchBranch.proceed)
    ∧ (d3.wait_status = 2 ∧ d3.wait_event = d.wait_event) := by
  constructor
  · obtain ⟨dX, hcs, rfl⟩ := capture_start_spo_history_cases o d d2 hHist
    obtain ⟨hev, _⟩ := channel_start_event _ _ _ _ hcs
    have h1 := set_wait_event_stop_status .spo dX
    have h2 := set_wait_event_stop_event_spo dX
    refine ⟨h1, h2.trans hev, ?_⟩
    unfold receive_dispatch
    rw [h2.trans hev]
  · unfold siglent_sds_capture_start at hRo
    injection hRo with hRo
    rw [← hRo]
    exact ⟨set_wait_event_stop_status .spo _, set_wait_event_stop_event_spo _⟩

/-- Witness for `c1_spo_wait_status` at a concrete oracle and context. -/
theorem c1_spo_wait_status_witness :
    (({ DevContext.init with wait_status := 2 } : DevContext).wait_status = 2 ∧
      ({ DevContext.init with wait_status := 2 } : DevContext).wait_event =
        WaitEvent.none ∧
      receive_dispatch { DevContext.init with wait_status := 2 } =
        DispatchBranch.proceed)
    ∧ (({ DevContext.init with wait_status := 2 } : DevContext).wait_status = 2 ∧
      ({ DevContext.init with wait_status := 2 } : DevContext).wait_event =
        DevContext.init.wait_event) :=
  c1_spo_wait_status CaptureOracle.allOk DevContext.init
    { DevContext.init with wait_status := 2 }
    { DevContext.init with wait_status := 2 } (by decide) (by decide)

/-- C2: every emitted analog sample is `vdiv * (raw / 25) - offset` for
the corresponding signed 8-bit payload byte, and the packet carries
measured quantity voltage with unit volt. -/
theorem c2_analog_decode (vdiv offset vdivlog : ℚ) (buffer : List ℕ) :
    (emit_analog vdiv offset vdivlog buffer).samples =
      buffer.map (fun b => decode_spec vdiv offset (int8OfByte b))
    ∧ (emit_analog vdiv offset vdivlog buffer).mq = Mq.voltage
    ∧ (emit_analog vdiv offset vdivlog buffer).unit = SrUnit.volt := by
  refine ⟨?_, rfl, rfl⟩
  show convert_loop vdiv offset buffer = _
  induction buffer with
  | nil => rfl
  | cons b bs ih => simp [convert_loop, decode_spec, ih]

/-- C7 evidence: the suffix conversion at a token ending in a bare `s`.
`atof("2s") = 2`, yet the code stores 0 because the bare-`s` branch
compares the last TWO characters of the token with the one-character
string `"s"`, which never matches; the `us`/`ns`/`ms` branches behave as
described (case-insensitively), with divisors 1e9 / 1e6 / 1e3. -/
theorem c7_trigger_suffix_eval :
    trigger_pos_of_token ['2', 's'] 2 = 0
    ∧ trigger_pos_of_token ['1', '.', '5', 'S'] (3 / 2) = 0
    ∧ trigger_pos_of_token ['2', 'U', 's'] 2 = 2 / 1000000000
    ∧ trigger_pos_of_token ['2', 'n', 'S'] 2 = 2 / 1000000
    ∧ trigger_pos_of_token ['2', 'm', 's'] 2 = 2 / 1000 := by
  refine ⟨?_, ?_, ?_, ?_, ?_⟩ <;> simp +decide [trigger_pos_of_token]

/-- C8 counterexample: at `vdivlog = log10(vdiv) = -1` (i.e. `vdiv =
0.1`, where `log10f` returns exactly -1.0) the code's digits value is 2,
not `⌈-log10(vdiv)⌉ = 1`. -/
theorem c8_counterexample : digits_code (-1) ≠ ⌈-(-1 : ℚ)⌉ := by
  decide

/-- C8 (amended): the digits value equals
`-trunc(log10(vdiv)) + (1 if log10(vdiv) < 0 else 0)` — truncation
toward zero, not floor — which coincides with `⌈-log10(vdiv)⌉` except
when `log10(vdiv)` is a negative integer, where it exceeds it by 1. -/
theorem c8_digits_amended (x : ℚ) :
    digits_code x = ⌈-x⌉ + (if x < 0 ∧ ⌈x⌉ = ⌊x⌋ then 1 else 0) := by
  unfold digits_code c_trunc
  rcases le_or_lt 0 x with h0 | h0
  · have hx : ¬ x < 0 := not_lt.mpr h0
    simp [h0, hx, Int.ceil_neg]
  · have hx : ¬ 0 ≤ x := not_le.mpr h0
    by_cases hi : ⌈x⌉ = ⌊x⌋
    · simp [hx, h0, hi, Int.ceil_neg]
    · simp only [hx, if_false, h0, if_true, hi, and_false, Int.ceil_neg]
      have h1 := Int.floor_le_ceil x
      have h2 := Int.ceil_le_floor_add_one x
      simp [and_true, h0]
      omega

/-- C9: in the logic-channel branch, a nonzero `siglent_sds_get_digital`
result leads to the logic packet, a frame end, and an unconditional
`dev_acquisition_stop`; when `num_frames + 1` equals `limit_frames` a
second `dev_acquisition_stop` follows, otherwise the channel cursor is
rewound to the first enabled channel and capture restarts with a frame
begin. -/
theorem c9_logic_branch (proto : Protocol) (ds : DataSource)
    (o : CaptureOracle) (digLen : ℤ) (digBufLen : ℕ) (d : DevContext)
    (h : digLen ≠ 0) :
    (logicBranch proto ds o digLen digBufLen d).2 =
      [Ev.logicPacket digBufLen, Ev.frameEnd, Ev.acqStop] ++
        (if d.num_frames + 1 = d.limit_frames then [Ev.acqStop]
         else [Ev.captureStart, Ev.frameBegin])
    ∧ (d.num_frames + 1 ≠ d.limit_frames →
        (logicBranch proto ds o digLen digBufLen d).1.channel_cursor = 0
        ∧ (logicBranch proto ds o digLen digBufLen d).1.num_frames =
            d.num_frames + 1) := by
  unfold logicBranch
  simp only [h, if_false]
  by_cases hl : d.num_frames + 1 = d.limit_frames
  · simp [hl]
  · simp only [hl, if_false]
    rcases hcs : siglent_sds_capture_start proto ds o
        { d with num_frames := d.num_frames + 1, channel_cursor := 0 }
      with _ | d3
    · simp [hcs, hl]
    · obtain ⟨hc, hf⟩ := capture_start_cursor_frames _ _ _ _ _ hcs
      simp [hcs, hl, hc, hf]

/-- Witness for `c9_logic_branch` on a concrete two-frame context. -/
theorem c9_logic_branch_witness :
    ((logicBranch .spo .readOnly CaptureOracle.allOk 3 16
        { DevContext.init with limit_frames := 2 }).2 =
      [Ev.logicPacket 16, Ev.frameEnd, Ev.acqStop] ++
        (if ({ DevContext.init with limit_frames := 2 } : DevContext).num_frames
            + 1 =
            ({ DevContext.init with limit_frames := 2 } : DevContext).limit_frames
         then [Ev.acqStop] else [Ev.captureStart, Ev.frameBegin])
    ∧ (({ DevContext.init with limit_frames := 2 } : DevContext).num_frames + 1 ≠
        ({ DevContext.init with limit_frames := 2 } : DevContext).limit_frames →
        (logicBranch .spo .readOnly CaptureOracle.allOk 3 16
          { DevContext.init with limit_frames := 2 }).1.channel_cursor = 0
        ∧ (logicBranch .spo .readOnly CaptureOracle.allOk 3 16
            { DevContext.init with limit_frames := 2 }).1.num_frames =
          ({ DevContext.init with limit_frames := 2 } : DevContext).num_frames
            + 1)) :=
  c9_logic_branch .spo .readOnly CaptureOracle.allOk 3 16
    { DevContext.init with limit_frames := 2 } (by decide)

lemma readStep_cases (proto : Protocol) (d : DevContext) (lbr : ℕ) (len : ℤ) :
    match readStep proto d lbr len with
    | .yieldRetry d2 s =>
        d2 = { d with retry_count := d.retry_count + 1 } ∧ s = 1000
          ∧ d.retry_count < 5
    | .emptyRetry d2 s =>
        d2 = siglent_sds_set_wait_event proto
          { d with retry_count := d.retry_count + 1 } .block ∧ s = 100000
          ∧ d.retry_count < 5
    | .accum d2 n =>
        d2 = { d with num_block_bytes := d.num_block_bytes + len.toNat,
                      num_block_read := d.num_block_read + 1 } ∧ n = len.toNat
    | _ => True := by
  unfold readStep
  split_ifs <;> simp_all

lemma clampRead_toNat_le (len : ℤ) (req : ℕ) : (clampRead len req).toNat ≤ req := by
  unfold clampRead
  split_ifs <;> omega

/-- Invariant of one pass of the inner payload read loop: the sample
count is unchanged, the bytes accumulated beyond the entry value match
the growth of `num_block_bytes`, the block counter never exceeds
`num_samples`, and the retry counter is bumped by exactly one on the
backoff (`return TRUE`) paths and only when it was below the cap. -/
lemma innerLoop_inv (proto : Protocol) (avail : ℕ) :
    ∀ (reads : List ℤ) (d : DevContext) (lbr : ℕ),
      d.num_block_bytes ≤ d.num_samples →
      match innerLoop proto avail d lbr reads with
      | .yield d2 _ l2 =>
          d2.num_samples = d.num_samples ∧ lbr ≤ l2
            ∧ d2.num_block_bytes + lbr = d.num_block_bytes + l2
            ∧ d2.num_block_bytes ≤ d.num_samples
            ∧ d2.retry_count = d.retry_count + 1 ∧ d.retry_count < 5
      | .aborted d2 l2 =>
          d2.num_samples = d.num_samples ∧ lbr ≤ l2
            ∧ d2.num_block_bytes + lbr = d.num_block_bytes + l2
            ∧ d2.num_block_bytes ≤ d.num_samples
            ∧ d2.retry_count = d.retry_count
      | .exitInner d2 l2 _ =>
          d2.num_samples = d.num_samples ∧ lbr ≤ l2
            ∧ d2.num_block_bytes + lbr = d.num_block_bytes + l2
            ∧ d2.num_block_bytes ≤ d.num_samples
            ∧ d2.retry_count = d.retry_count := by
  intro reads
  induction reads with
  | nil =>
    intro d lbr h
    simp only [innerLoop]
    have hc := readStep_cases proto d lbr (-1)
    rcases hstep : readStep proto d lbr (-1)
      with ⟨d2, s⟩ | ⟨⟩ | ⟨⟩ | ⟨⟩ | ⟨d2, s⟩ | ⟨⟩ | ⟨d2, n⟩
      <;> rw [hstep] at hc
    · obtain ⟨rfl, -, h5⟩ := hc
      exact ⟨rfl, le_refl lbr, rfl, h, rfl, h5⟩
    · exact ⟨rfl, le_refl lbr, rfl, h, rfl⟩
    · exact ⟨rfl, le_refl lbr, rfl, h, rfl⟩
    · exact ⟨rfl, le_refl lbr, rfl, h, rfl⟩
    · exact ⟨rfl, le_refl lbr, rfl, h, rfl⟩
    · exact ⟨rfl, le_refl lbr, rfl, h, rfl⟩
    · exact ⟨rfl, le_refl lbr, rfl, h, rfl⟩
  | cons len rest ih =>
    intro d lbr h
    simp only [innerLoop]
    have hn := clampRead_toNat_le len (d.num_samples - d.num_block_bytes)
    have hc := readStep_cases proto d lbr
      (clampRead len (d.num_samples - d.num_block_bytes))
    rcases hstep : readStep proto d lbr
        (clampRead len (d.num_samples - d.num_block_bytes))
      with ⟨d2, s⟩ | ⟨⟩ | ⟨⟩ | ⟨⟩ | ⟨d2, s⟩ | ⟨⟩ | ⟨d2, n⟩
      <;> rw [hstep] at hc
    · obtain ⟨rfl, -, h5⟩ := hc
      exact ⟨rfl, le_refl lbr, rfl, h, rfl, h5⟩
    · exact ⟨rfl, le_refl lbr, rfl, h, rfl⟩
    · exact ⟨rfl, le_refl lbr, rfl, h, rfl⟩
    · exact ⟨rfl, le_refl lbr, rfl, h, rfl⟩
    · obtain ⟨rfl, -, h5⟩ := hc
      exact ⟨rfl, le_refl lbr, rfl, h, rfl, h5⟩
    · exact ⟨rfl, le_refl lbr, rfl, h, rfl⟩
    · obtain ⟨rfl, rfl⟩ := hc
      simp only []
      split_ifs with hcond
      · have hi := ih { d with
            num_block_bytes := d.num_block_bytes +
              (clampRead len (d.num_samples - d.num_block_bytes)).toNat,
            num_block_read := d.num_block_read + 1 }
          (lbr + (clampRead len (d.num_samples - d.num_block_bytes)).toNat)
          (by simp only []; omega)
        rcases hI : innerLoop proto avail { d with
            num_block_bytes := d.num_block_bytes +
              (clampRead len (d.num_samples - d.num_block_bytes)).toNat,
            num_block_read := d.num_block_read + 1 }
            (lbr + (clampRead len (d.num_samples - d.num_block_bytes)).toNat)
            rest with ⟨d3, s3, l3⟩ | ⟨d3, l3⟩ | ⟨d3, l3, r3⟩
          <;> rw [hI] at hi
        · obtain ⟨h1, h2, h3, h4, h5, h6⟩ := hi
          simp only [] at h1 h2 h3 h4 h5 ⊢
          exact ⟨h1, by omega, by omega, by omega, by omega, h6⟩
        · obtain ⟨h1, h2, h3, h4, h5⟩ := hi
          simp only [] at h1 h2 h3 h4 h5 ⊢
          exact ⟨h1, by omega, by omega, by omega, by omega⟩
        · obtain ⟨h1, h2, h3, h4, h5⟩ := hi
          simp only [] at h1 h2 h3 h4 h5 ⊢
          exact ⟨h1, by omega, by omega, by omega, by omega⟩
      · refine ⟨rfl, Nat.le_add_right lbr _, ?_, ?_, rfl⟩
        · simp only []
          omega
        · simp only []
          omega

/-- Total payload bytes accumulated across one poll of the block phase
never exceed the remaining block size at poll entry. -/
lemma outerLoop_total_le (proto : Protocol) (rco : Bool) :
    ∀ (fuel : ℕ) (d : DevContext) (reads : List ℤ) (acc : ℕ) (evs : List Ev),
      (outerLoop proto rco fuel d reads acc evs).total ≤
        acc + (d.num_samples - d.num_block_bytes) := by
  intro fuel
  induction fuel with
  | zero => intro d reads acc evs; simp [outerLoop]
  | succ n ih =>
    intro d reads acc evs
    simp only [outerLoop]
    by_cases hneg : d.num_samples < d.num_block_bytes
    · rw [if_pos hneg]
      simp
    · rw [if_neg hneg]
      have hns := Nat.le_of_not_lt hneg
      have hinv := innerLoop_inv proto (d.num_samples - d.num_block_bytes)
        reads d 0 hns
      rcases hI : innerLoop proto (d.num_samples - d.num_block_bytes) d 0 reads
        with ⟨d2, s, l2⟩ | ⟨d2, l2⟩ | ⟨d2, l2, rest⟩ <;> rw [hI] at hinv
      · obtain ⟨-, -, h3, h4, -⟩ := hinv
        simp only []
        omega
      · obtain ⟨-, -, h3, h4, -⟩ := hinv
        simp only []
        omega
      · obtain ⟨hsam, -, hcons, hle, -⟩ := hinv
        simp only []
        split_ifs <;>
          first
            | ((try simp only []) <;> omega)
            | (refine le_trans (ih { d2 with retry_count := 0 } rest (acc + l2)
                  (evs ++ [Ev.analogPacket l2])) ?_
               (try simp only []) <;> omega)

/-- The retry counter never exceeds its cap of 5 across a poll. -/
lemma outerLoop_retry_le (proto : Protocol) (rco : Bool) :
    ∀ (fuel : ℕ) (d : DevContext) (reads : List ℤ) (acc : ℕ) (evs : List Ev),
      d.retry_count ≤ 5 →
      (outerLoop proto rco fuel d reads acc evs).d.retry_count ≤ 5 := by
  intro fuel
  induction fuel with
  | zero => intro d reads acc evs h5; simpa [outerLoop] using h5
  | succ n ih =>
    intro d reads acc evs h5
    simp only [outerLoop]
    by_cases hneg : d.num_samples < d.num_block_bytes
    · rw [if_pos hneg]
      simpa using h5
    · rw [if_neg hneg]
      have hinv := innerLoop_inv proto (d.num_samples - d.num_block_bytes)
        reads d 0 (Nat.le_of_not_lt hneg)
      rcases hI : innerLoop proto (d.num_samples - d.num_block_bytes) d 0 reads
        with ⟨d2, s, l2⟩ | ⟨d2, l2⟩ | ⟨d2, l2, rest⟩ <;> rw [hI] at hinv
      · obtain ⟨-, -, -, -, hr, hlt⟩ := hinv
        simp only []
        omega
      · obtain ⟨-, -, -, -, hr⟩ := hinv
        simp only []
        omega
      · simp only []
        split_ifs <;>
          first
            | ((try simp only []) <;> omega)
            | exact ih { d2 with retry_count := 0 } rest (acc + l2)
                (evs ++ [Ev.analogPacket l2]) (by simp)

/-- A poll that ends in `completed` or `channelAbort` leaves the retry
counter reset to 0 (the reset after a pass with at least one chunk). -/
lemma outerLoop_retry_reset (proto : Protocol) (rco : Bool) :
    ∀ (fuel : ℕ) (d : DevContext) (reads : List ℤ) (acc : ℕ) (evs : List Ev),
      ((outerLoop proto rco fuel d reads acc evs).exit = .completed ∨
       (outerLoop proto rco fuel d reads acc evs).exit = .channelAbort) →
      (outerLoop proto rco fuel d reads acc evs).d.retry_count = 0 := by
  intro fuel
  induction fuel with
  | zero => intro d reads acc evs hx; simp [outerLoop] at hx
  | succ n ih =>
    intro d reads acc evs hx
    simp only [outerLoop] at hx ⊢
    by_cases hneg : d.num_samples < d.num_block_bytes
    · rw [if_pos hneg] at hx
      simp at hx
    · rw [if_neg hneg] at hx ⊢
      rcases hI : innerLoop proto (d.num_samples - d.num_block_bytes) d 0 reads
        with ⟨d2, s, l2⟩ | ⟨d2, l2⟩ | ⟨d2, l2, rest⟩ <;> rw [hI] at hx
      · simp at hx
      · simp at hx
      · simp only [] at hx ⊢
        split_ifs at hx ⊢ <;>
          first
            | ((try simp only []) <;> rfl)
            | (simp at hx)
            | exact ih { d2 with retry_count := 0 } rest (acc + l2)
                (evs ++ [Ev.analogPacket l2]) hx

lemma set_wait_event_nonstop_event (p : Protocol) (d : DevContext)
    (e : WaitEvent) (he : e ≠ .stop) :
    (siglent_sds_set_wait_event p d e).wait_event = e := by
  unfold siglent_sds_set_wait_event
  rw [if_neg he]

/-- C3 counterexample: a poll entering the block phase with 20480 bytes
remaining and a transport delivering two 10240-byte chunks reads 20480
payload bytes before returning — more than
`min(10240, num_samples - num_block_bytes) = 10240` — because the outer
`do {} while (!read_complete)` loop keeps reading until the block
completes. -/
theorem c3_counterexample :
    (pollBlock .spo true dBig [10240, 10240, 2]).total = 20480
    ∧ min 10240 (dBig.num_samples - dBig.num_block_bytes) = 10240
    ∧ ¬ ((pollBlock .spo true dBig [10240, 10240, 2]).total ≤
        min 10240 (dBig.num_samples - dBig.num_block_bytes)) := by
  refine ⟨by decide, by decide, by decide⟩

/-- C3 (amended): in one poll of the block phase the
`min(10240, num_samples - num_block_bytes)` bound is only the inner
loop's exit threshold, not a cap on the bytes read: the outer loop
repeats until the block completes, so a single poll may read up to the
entire remaining payload `num_samples - num_block_bytes` — and never
more than that. -/
theorem c3_poll_read_bound (proto : Protocol) (rco : Bool) (d : DevContext)
    (reads : List ℤ) :
    (pollBlock proto rco d reads).total ≤
      d.num_samples - d.num_block_bytes := by
  simpa using outerLoop_total_le proto rco (reads.length + 1) d reads 0 []

/-- C4: handling of `read_data == -1` during an analog payload read:
with bytes already read this poll the data is flushed (loop break); with
none read the retry counter is incremented and the poll yields 1 ms
while `retry_count < 5`; once it has reached 5 the acquisition is
aborted with frame-end then stop; the counter never exceeds 5, never
decreases within a stall step, and is reset to 0 by a pass that
completes (`completed` or `channelAbort` exits). -/
theorem c4_transient_drain (proto : Protocol) (d : DevContext) (lbr : ℕ)
    (rco : Bool) (rest reads : List ℤ)
    (h5 : d.retry_count ≤ 5) (hns : d.num_block_bytes ≤ d.num_samples) :
    (0 < lbr → readStep proto d lbr (-1) = .flushBreak)
    ∧ (lbr = 0 → d.retry_count < 5 →
        readStep proto d lbr (-1) =
          .yieldRetry { d with retry_count := d.retry_count + 1 } 1000)
    ∧ (lbr = 0 → d.retry_count = 5 → readStep proto d lbr (-1) = .abortRead)
    ∧ d.retry_count ≤ stepRetry (readStep proto d lbr (-1)) d.retry_count
    ∧ stepRetry (readStep proto d lbr (-1)) d.retry_count ≤ 5
    ∧ (d.retry_count = 5 →
        (pollBlock proto rco d ((-1) :: rest)).exit = .aborted
        ∧ (pollBlock proto rco d ((-1) :: rest)).events =
            [Ev.frameEnd, Ev.acqStop])
    ∧ (pollBlock proto rco d reads).d.retry_count ≤ 5
    ∧ ((pollBlock proto rco d reads).exit = .completed ∨
        (pollBlock proto rco d reads).exit = .channelAbort →
        (pollBlock proto rco d reads).d.retry_count = 0) := by
  have hflush : 0 < lbr → readStep proto d lbr (-1) = .flushBreak := by
    intro hl
    unfold readStep
    rw [if_pos rfl, if_pos hl]
  have hyield : lbr = 0 → d.retry_count < 5 →
      readStep proto d lbr (-1) =
        .yieldRetry { d with retry_count := d.retry_count + 1 } 1000 := by
    intro hl hlt
    subst hl
    unfold readStep
    rw [if_pos rfl, if_neg (lt_irrefl 0), if_pos hlt]
  have habort : lbr = 0 → d.retry_count = 5 →
      readStep proto d lbr (-1) = .abortRead := by
    intro hl h5e
    subst hl
    unfold readStep
    rw [if_pos rfl, if_neg (lt_irrefl 0), if_neg (by omega)]
  refine ⟨hflush, hyield, habort, ?_, ?_, ?_, ?_, ?_⟩
  · have hc := readStep_cases proto d lbr (-1)
    rcases hstep : readStep proto d lbr (-1)
      with ⟨d2, s⟩ | ⟨⟩ | ⟨⟩ | ⟨⟩ | ⟨d2, s⟩ | ⟨⟩ | ⟨d2, n⟩
      <;> rw [hstep] at hc <;> unfold stepRetry <;> simp only []
    · obtain ⟨rfl, -, -⟩ := hc
      simp
    · exact le_refl _
    · exact le_refl _
    · exact le_refl _
    · obtain ⟨rfl, -, -⟩ := hc
      simp [siglent_sds_set_wait_event]
    · exact le_refl _
    · obtain ⟨rfl, -⟩ := hc
      simp
  · have hc := readStep_cases proto d lbr (-1)
    rcases hstep : readStep proto d lbr (-1)
      with ⟨d2, s⟩ | ⟨⟩ | ⟨⟩ | ⟨⟩ | ⟨d2, s⟩ | ⟨⟩ | ⟨d2, n⟩
      <;> rw [hstep] at hc <;> unfold stepRetry <;> simp only []
    · obtain ⟨rfl, -, hlt⟩ := hc
      simp only []
      omega
    · exact h5
    · exact h5
    · exact h5
    · obtain ⟨rfl, -, hlt⟩ := hc
      simp only [siglent_sds_set_wait_event]
      rw [if_neg (by decide)]
      simp only []
      omega
    · exact h5
    · obtain ⟨rfl, -⟩ := hc
      simp only []
      omega
  · intro h5e
    have hstep : readStep proto d 0 (-1) = .abortRead := by
      unfold readStep
      rw [if_pos rfl, if_neg (lt_irrefl 0), if_neg (by omega)]
    have hclamp : clampRead (-1) (d.num_samples - d.num_block_bytes) = -1 := by
      unfold clampRead
      rw [if_neg (by norm_num)]
    constructor <;>
      · simp only [pollBlock, List.length_cons, outerLoop, innerLoop]
        rw [if_neg (not_lt.mpr hns), hclamp, hstep]
        try rfl
  · exact outerLoop_retry_le proto rco (reads.length + 1) d reads 0 [] h5
  · exact outerLoop_retry_reset proto rco (reads.length + 1) d reads 0 []

/-- Witness for `c4_transient_drain` at a concrete stalled context with
the retry budget exhausted. -/
theorem c4_transient_drain_witness :
    readStep .spo dStall 0 (-1) = .abortRead
    ∧ (pollBlock .spo true dStall [-1]).exit = .aborted
    ∧ (pollBlock .spo true dStall [2]).exit = .channelAbort
    ∧ (pollBlock .spo true dStall [2]).d.retry_count = 0 := by
  obtain ⟨-, -, h3, -, -, h6, -, h8⟩ :=
    c4_transient_drain .spo dStall 0 true [] [2] (by decide) (by decide)
  exact ⟨h3 rfl rfl, (h6 rfl).1, by decide, h8 (by decide)⟩

/-- C5: a 2-byte read (just the two line terminators) while
`num_block_read == 0`: if `retry_count < 5` the handler increments the
counter, yields 100 ms and rewinds `wait_event` to `Block` so the
channel read restarts; otherwise it abandons the block (the pass ends
with 0 bytes, exit `channelAbort`) and the channel progression then
advances the cursor to the next channel. -/
theorem c5_empty_waveform (proto : Protocol) (d : DevContext) (lbr : ℕ)
    (rco framOk : Bool) (ds : DataSource) (o : CaptureOracle) (rest : List ℤ)
    (hnbr : d.num_block_read = 0)
    (h2 : 2 ≤ d.num_samples - d.num_block_bytes) :
    (d.retry_count < 5 →
      readStep proto d lbr 2 =
        .emptyRetry (siglent_sds_set_wait_event proto
          { d with retry_count := d.retry_count + 1 } .block) 100000
      ∧ (pollBlock proto rco d (2 :: rest)).exit = .yielded
      ∧ (pollBlock proto rco d (2 :: rest)).sleep_us = 100000
      ∧ (pollBlock proto rco d (2 :: rest)).d.wait_event = .block
      ∧ (pollBlock proto rco d (2 :: rest)).d.retry_count = d.retry_count + 1)
    ∧ (5 ≤ d.retry_count →
      readStep proto d lbr 2 = .emptyAbortBreak
      ∧ (pollBlock proto rco d (2 :: rest)).exit = .channelAbort)
    ∧ ((analogTail proto ds true framOk o d).1.channel_cursor =
        d.channel_cursor + 1
      ∧ (analogTail proto ds true framOk o d).1.wait_event = .block
      ∧ (analogTail proto ds true framOk o d).2 = []) := by
  have hnlt : ¬ d.num_samples < d.num_block_bytes := by omega
  have hclamp : clampRead 2 (d.num_samples - d.num_block_bytes) = 2 := by
    unfold clampRead
    rw [if_pos (by norm_num)]
    exact min_eq_left (by exact_mod_cast h2)
  refine ⟨?_, ?_, ?_, ?_, rfl⟩
  · intro hlt
    have hstep : ∀ lb, readStep proto d lb 2 =
        .emptyRetry (siglent_sds_set_wait_event proto
          { d with retry_count := d.retry_count + 1 } .block) 100000 := by
      intro lb
      unfold readStep
      rw [if_neg (by norm_num), if_neg (by norm_num),
        if_pos ⟨rfl, hnbr⟩, if_pos hlt]
    refine ⟨hstep lbr, ?_⟩
    simp only [pollBlock, List.length_cons, outerLoop, innerLoop]
    rw [if_neg hnlt, hclamp, hstep 0]
    refine ⟨rfl, rfl, ?_, ?_⟩
    · exact set_wait_event_nonstop_event proto _ .block (by decide)
    · show (siglent_sds_set_wait_event proto
        { d with retry_count := d.retry_count + 1 } .block).retry_count =
          d.retry_count + 1
      unfold siglent_sds_set_wait_event
      rw [if_neg (by decide)]
  · intro h5e
    have hstep : ∀ lb, readStep proto d lb 2 = .emptyAbortBreak := by
      intro lb
      unfold readStep
      rw [if_neg (by norm_num), if_neg (by norm_num),
        if_pos ⟨rfl, hnbr⟩, if_neg (by omega)]
    refine ⟨hstep lbr, ?_⟩
    simp only [pollBlock, List.length_cons, outerLoop, innerLoop]
    rw [if_neg hnlt, hclamp, hstep 0]
    rfl
  · unfold analogTail
    rw [if_pos rfl, set_wait_event_cursor]
  · unfold analogTail
    rw [if_pos rfl]
    exact set_wait_event_nonstop_event proto _ .block (by decide)

/-- Witness for `c5_empty_waveform` at a concrete context with the
retry budget exhausted. -/
theorem c5_empty_waveform_witness :
    readStep .spo dEmptyAbort 0 2 = .emptyAbortBreak
    ∧ (pollBlock .spo true dEmptyAbort [2]).exit = .channelAbort
    ∧ (analogTail .spo .screen true true CaptureOracle.allOk
        dEmptyAbort).1.channel_cursor = dEmptyAbort.channel_cursor + 1 := by
  obtain ⟨-, h2, h3, -⟩ :=
    c5_empty_waveform .spo dEmptyAbort 0 true true .screen
      CaptureOracle.allOk [] (by decide) (by decide)
  exact ⟨(h2 (by decide)).1, (h2 (by decide)).2, h3⟩

/-- C6: in the header phase, a parsed `data_length` field of 0 makes
`siglent_sds_read_header` attempt to read 3 more bytes; exactly 2 bytes
back reports the empty waveform, anything else the garbage waveform;
both paths return an error and leave `num_samples` unset. -/
theorem c6_zero_data_length (d : DevContext) (script : List RawRead)
    (buf : List ℕ) (rest : List RawRead)
    (hAsm : headerReadLoop 0 [] script = some (buf, rest))
    (hz : dataLengthOf buf = 0) :
    ((siglent_sds_read_header d script).2 = .error .emptyWaveform ∨
      (siglent_sds_read_header d script).2 = .error .garbageWaveform)
    ∧ ((siglent_sds_read_header d script).2 = .error .emptyWaveform ↔
        headerProbeLen rest = 2)
    ∧ (siglent_sds_read_header d script).1.num_samples = d.num_samples := by
  unfold siglent_sds_read_header
  rw [hAsm]
  simp only []
  rw [if_pos hz]
  by_cases hp : headerProbeLen rest = 2
  · rw [if_pos hp]
    exact ⟨Or.inl rfl, ⟨fun _ => hp, fun _ => rfl⟩, rfl⟩
  · rw [if_neg hp]
    exact ⟨Or.inr rfl, ⟨fun hcontr => absurd hcontr (by simp),
      fun hcontr => absurd hcontr hp⟩, rfl⟩

/-- Witness for `c6_zero_data_length` at a concrete all-zero header. -/
theorem c6_zero_data_length_witness :
    ((siglent_sds_read_header DevContext.init hdrScript).2 =
        .error .emptyWaveform ∨
      (siglent_sds_read_header DevContext.init hdrScript).2 =
        .error .garbageWaveform)
    ∧ ((siglent_sds_read_header DevContext.init hdrScript).2 =
        .error .emptyWaveform ↔
        headerProbeLen [RawRead.bytes [10, 10]] = 2)
    ∧ (siglent_sds_read_header DevContext.init hdrScript).1.num_samples =
        DevContext.init.num_samples :=
  c6_zero_data_length DevContext.init hdrScript
    (List.replicate SIGLENT_HEADER_SIZE 0) [RawRead.bytes [10, 10]]
    (by decide) (by decide)

lemma forall_lt_iff_le (m L : ℕ) : (∀ j < m, j < L) ↔ m ≤ L := by
  constructor
  · intro hall
    rcases Nat.eq_zero_or_pos m with rfl | hp
    · omega
    · have := hall (m - 1) (by omega)
      omega
  · intro hle j hj
    omega

lemma planeGo_isSome (chBit : ℕ) (buffdata acc : List ℕ) :
    ∀ (n cur : ℕ) (tmp : List ℕ),
      (planeGo chBit buffdata acc n cur tmp).isSome = true ↔
        ∀ j < n, cur + j < buffdata.length := by
  intro n
  induction n with
  | zero => intro cur tmp; simp [planeGo]
  | succ m ih =>
    intro cur tmp
    simp only [planeGo]
    rcases hg : buffdata.get? cur with _ | b
    · have hlen : buffdata.length ≤ cur := List.get?_eq_none.mp hg
      simp only [Option.isSome_none, Bool.false_eq_true, false_iff]
      intro hall
      have := hall 0 (Nat.succ_pos m)
      omega
    · have hlt : cur < buffdata.length := by
        obtain ⟨hw, -⟩ := List.get?_eq_some.mp hg
        exact hw
      rw [ih (cur + 1) (tmp ++ planeBits chBit b acc (8 * cur))]
      constructor
      · intro hall j hj
        rcases Nat.eq_zero_or_pos j with rfl | hp
        · simpa using hlt
        · have := hall (j - 1) (by omega)
          omega
      · intro hall j hj
        have := hall (j + 1) (by omega)
        omega

lemma planeGo_length (chBit : ℕ) (buffdata acc : List ℕ) :
    ∀ (n cur : ℕ) (tmp out : List ℕ),
      planeGo chBit buffdata acc n cur tmp = some out →
      out.length = tmp.length + 8 * n := by
  intro n
  induction n with
  | zero =>
    intro cur tmp out h
    injection h with h
    rw [← h]
    omega
  | succ m ih =>
    intro cur tmp out h
    simp only [planeGo] at h
    rcases hg : buffdata.get? cur with _ | b <;> rw [hg] at h
    · exact Option.noConfusion h
    · have hlen := ih (cur + 1) (tmp ++ planeBits chBit b acc (8 * cur)) out h
      have hpb : (planeBits chBit b acc (8 * cur)).length = 8 := by
        simp [planeBits]
      rw [List.length_append, hpb] at hlen
      omega

lemma interleaveGo_isSome (lowCh highCh : Bool) (lowAcc highAcc : List ℕ) :
    ∀ (n idx : ℕ) (out : List ℕ),
      (interleaveGo lowCh highCh lowAcc highAcc n idx out).isSome = true ↔
        ((lowCh = true → ∀ j < n, idx + j < lowAcc.length) ∧
         (highCh = true → ∀ j < n, idx + j < highAcc.length)) := by
  intro n
  induction n with
  | zero => intro idx out; simp [interleaveGo]
  | succ m ih =>
    intro idx out
    simp only [interleaveGo]
    rcases hlv : (if lowCh then lowAcc.get? idx else some 0) with _ | lv <;>
      simp only []
    · have hlc : lowCh = true := by
        by_contra hfalse
        rw [if_neg hfalse] at hlv
        exact Option.noConfusion hlv
      rw [hlc, if_pos rfl] at hlv
      have hlen : lowAcc.length ≤ idx := List.get?_eq_none.mp hlv
      simp only [Option.isSome_none, Bool.false_eq_true, false_iff]
      rintro ⟨hl, -⟩
      have := hl hlc 0 (Nat.succ_pos m)
      omega
    · rcases hhv : (if highCh then highAcc.get? idx else some 0) with _ | hv <;>
        simp only []
      · have hhc : highCh = true := by
          by_contra hfalse
          rw [if_neg hfalse] at hhv
          exact Option.noConfusion hhv
        rw [hhc, if_pos rfl] at hhv
        have hlen : highAcc.length ≤ idx := List.get?_eq_none.mp hhv
        simp only [Option.isSome_none, Bool.false_eq_true, false_iff]
        rintro ⟨-, hh⟩
        have := hh hhc 0 (Nat.succ_pos m)
        omega
      · rw [ih (idx + 1) (out ++ [lv, hv])]
        have hlowIdx : lowCh = true → idx < lowAcc.length := by
          intro hlc
          rw [hlc, if_pos rfl] at hlv
          obtain ⟨hw, -⟩ := List.get?_eq_some.mp hlv
          exact hw
        have hhighIdx : highCh = true → idx < highAcc.length := by
          intro hhc
          rw [hhc, if_pos rfl] at hhv
          obtain ⟨hw, -⟩ := List.get?_eq_some.mp hhv
          exact hw
        constructor
        · rintro ⟨hl, hh⟩
          refine ⟨fun hlc j hj => ?_, fun hhc j hj => ?_⟩
          · rcases Nat.eq_zero_or_pos j with rfl | hp
            · simpa using hlowIdx hlc
            · have := hl hlc (j - 1) (by omega)
              omega
          · rcases Nat.eq_zero_or_pos j with rfl | hp
            · simpa using hhighIdx hhc
            · have := hh hhc (j - 1) (by omega)
              omega
        · rintro ⟨hl, hh⟩
          refine ⟨fun hlc j hj => ?_, fun hhc j hj => ?_⟩
          · have := hl hlc (j + 1) (by omega)
            omega
          · have := hh hhc (j + 1) (by omega)
            omega

/-- C10: in `siglent_sds_get_digital` the bit-planing loop indexes the
per-channel raw byte array at `0 .. memory_depth_digital - 1` though it
holds `len - 15` bytes, so every access is in bounds exactly when
`memory_depth_digital ≤ len - 15`; a processed channel leaves an
accumulator of `8 · memory_depth_digital` entries, and the final
interleave (indices `0 .. memory_depth_digital - 1` into each
accumulator whose half was processed) is in bounds exactly when each
processed half's accumulator has at least `memory_depth_digital`
entries — in particular always when fed a processed channel's
accumulator. -/
theorem c10_digital_bounds (chIdx mdd len : ℕ)
    (buffdata acc lowAcc highAcc : List ℕ) (lowCh highCh : Bool)
    (hbuf : buffdata.length = len - 15) :
    ((planeChannelLoop chIdx mdd buffdata acc).isSome = true ↔
      mdd ≤ len - 15)
    ∧ (∀ out, planeChannelLoop chIdx mdd buffdata acc = some out →
        out.length = 8 * mdd)
    ∧ ((interleaveLoop mdd lowCh highCh lowAcc highAcc).isSome = true ↔
        ((lowCh = true → mdd ≤ lowAcc.length) ∧
         (highCh = true → mdd ≤ highAcc.length)))
    ∧ (∀ out, planeChannelLoop chIdx mdd buffdata acc = some out →
        (highCh = true → mdd ≤ highAcc.length) →
        (interleaveLoop mdd true highCh out highAcc).isSome = true) := by
  have hplane : (planeChannelLoop chIdx mdd buffdata acc).isSome = true ↔
      mdd ≤ len - 15 := by
    unfold planeChannelLoop
    rw [planeGo_isSome, ← hbuf, ← forall_lt_iff_le mdd buffdata.length]
    constructor
    · intro hall j hj
      have := hall j hj
      omega
    · intro hall j hj
      have := hall j hj
      omega
  have hlen : ∀ out, planeChannelLoop chIdx mdd buffdata acc = some out →
      out.length = 8 * mdd := by
    intro out h
    unfold planeChannelLoop at h
    have := planeGo_length _ buffdata acc mdd 0 [] out h
    simpa using this
  have hint : ∀ (la ha : List ℕ) (lc hc : Bool),
      (interleaveLoop mdd lc hc la ha).isSome = true ↔
        ((lc = true → mdd ≤ la.length) ∧ (hc = true → mdd ≤ ha.length)) := by
    intro la ha lc hc
    unfold interleaveLoop
    rw [interleaveGo_isSome]
    constructor
    · rintro ⟨hl, hh⟩
      refine ⟨fun hlc => ?_, fun hhc => ?_⟩
      · rw [← forall_lt_iff_le mdd la.length]
        intro j hj
        have := hl hlc j hj
        omega
      · rw [← forall_lt_iff_le mdd ha.length]
        intro j hj
        have := hh hhc j hj
        omega
    · rintro ⟨hl, hh⟩
      refine ⟨fun hlc j hj => ?_, fun hhc j hj => ?_⟩
      · have := (forall_lt_iff_le mdd la.length).mpr (hl hlc) j hj
        omega
      · have := (forall_lt_iff_le mdd ha.length).mpr (hh hhc) j hj
        omega
  refine ⟨hplane, hlen, hint lowAcc highAcc lowCh highCh, ?_⟩
  intro out hout hh
  rw [hint out highAcc true highCh]
  refine ⟨fun _ => ?_, hh⟩
  rw [hlen out hout]
  omega

/-- Witness for `c10_digital_bounds` at a 16-sample digital depth and a
31-byte transport read. -/
theorem c10_digital_bounds_witness :
    ((planeChannelLoop 0 16 (List.replicate 16 0) []).isSome = true ↔
      16 ≤ 31 - 15)
    ∧ ((interleaveLoop 16 true false (List.replicate 128 0) []).isSome =
        true ↔
        ((true = true → 16 ≤ (List.replicate 128 (0 : ℕ)).length) ∧
         (false = true → 16 ≤ ([] : List ℕ).length))) :=
  ⟨(c10_digital_bounds 0 16 31 (List.replicate 16 0) []
      (List.replicate 128 0) [] true false (by decide)).1,
   (c10_digital_bounds 0 16 31 (List.replicate 16 0) []
      (List.replicate 128 0) [] true false (by decide)).2.2.1⟩

end SiglentSds
